import Mathlib

/-!
Verification of `Trajectory_Mining/Text_Analysis/Feature_Space/comp_distance.py`.

The script loads a CSV of killmail records, parses the `items` column with
`ast.literal_eval`, groups rows by `character_id`, sorts each group by
`killmail_id`, and for each adjacent pair of rows computes two cosine
similarities (one over the long-form item names, one over the short-form
names) via a per-pair `TfidfVectorizer().fit_transform` followed by
`linear_kernel`.  The groups, augmented with the two score columns, are
concatenated and written back out.

Floating-point arithmetic is modelled over `ℝ`.  A Python exception is
modelled as `Option.none` (the script has no handlers: any exception aborts
the run).
-/

namespace CompDistance

/-! ### Values of the `items` column

After `literal_eval`, an `items` cell is either a list of 2-element lists of
strings (modelled as `List (String × String)`; index `0` is long-form text,
index `1` is short-form text), or a float-typed scalar — the "missing"
sentinel that the similarity functions test with `type(los) == float`.
The float's numeric value is never inspected by the script, only its type,
so the model does not carry it. -/
inductive PyVal where
  | pyFloat : PyVal
  | pyList (items : List (String × String)) : PyVal
deriving DecidableEq

/-! ### Loader: `df.drop` and `literal_eval` -/

/-- The three columns dropped by the loader (comp_distance.py line 124). -/
def iskCols : List String := ["HighSlotISK", "MidSlotISK", "LowSlotISK"]

/-- Model of `df.drop(columns=cols)` on a table whose column labels are `schema`.
Modelled from the documented pandas contract: with the default
`errors='raise'`, `drop` raises a `KeyError` (here `none`) if any requested
label is absent; otherwise it returns the schema with those labels removed,
preserving the order of the remaining columns. -/
def dropColumns (schema cols : List String) : Option (List String) :=
  if cols.all (fun c => schema.contains c) then
    some (schema.filter (fun c => !cols.contains c))
  else
    none

/-- A raw cell of the `items` column as handed to `literal_eval`
(comp_distance.py line 128), classified by its parse status:
* `lit v` — text that is a well-formed Python literal rendering of `v`
  (a list-of-pairs encoding, or a scalar numeric literal);
* `malformed` — text that is not a well-formed Python literal;
* `missing` — an empty CSV cell, which `pandas.read_csv` materialises as the
  float `nan` (not a string at all). -/
inductive CsvCell where
  | lit (v : PyVal) : CsvCell
  | malformed : CsvCell
  | missing : CsvCell
deriving DecidableEq

/-- Model of `ast.literal_eval` applied to one cell.  Modelled from the documented
CPython contract: a string that parses as a literal evaluates to its value;
a string that does not parse raises `ValueError`; a non-string argument
(such as the float `nan` of a missing cell) also raises
`ValueError: malformed node or string`.  An exception is `none`. -/
def literalEval : CsvCell → Option PyVal
  | .lit v => some v
  | .malformed => none
  | .missing => none

/-! ### sklearn tokenizer

`TfidfVectorizer()` with default parameters lowercases each document and
extracts tokens with the default `token_pattern` `(?u)\b\w\w+\b`: maximal
runs of word characters, keeping only runs of length ≥ 2 (single-character
tokens are discarded; punctuation and spaces separate tokens). -/

/-- Word characters of the analyzer, over the ASCII range: alphanumeric
characters and underscore (`Char.isAlphanum` covers exactly the ASCII
letters and digits).  sklearn's `(?u)\b\w\w+\b` matches Unicode word
characters; see `tokenize` for the fidelity scope of this model. -/
def isWordChar (c : Char) : Bool := c.isAlphanum || c == '_'

/-- Splits a character list into maximal runs of word characters.
`cur` is the current run, reversed. -/
def tokenRunsAux : List Char → List Char → List (List Char)
  | cur, [] => if cur.isEmpty then [] else [cur.reverse]
  | cur, c :: cs =>
    if isWordChar c then tokenRunsAux (c :: cur) cs
    else (if cur.isEmpty then [] else [cur.reverse]) ++ tokenRunsAux [] cs

def tokenRuns (cs : List Char) : List (List Char) := tokenRunsAux [] cs

/-- Tokens extracted from a document by the default `TfidfVectorizer`
analyzer: lowercase, then keep the maximal word-character runs of length
at least 2, in order of appearance.

Fidelity scope: `isWordChar` and `Char.toLower` cover the ASCII range,
while sklearn's default `token_pattern` is Unicode-aware, so this model
is exact for ASCII documents (all concrete documents appearing below are
ASCII).  On other documents the model can only lose tokens, never invent
or merge them: any run it keeps is a contiguous block of ASCII word
characters of the document and hence contained in a `\w`-run of length
≥ 2 of the real tokenizer, so a document with a model token also has a
real token.  Accordingly, the theorems below apply `tokenize` to
non-concrete documents only inside hypotheses asserting that a document
has at least one token — never inside a hypothesis equating the token
lists of two otherwise unrelated documents, which the ASCII restriction
could make true spuriously. -/
def tokenize (s : String) : List String :=
  ((tokenRuns (s.data.map Char.toLower)).filter (fun r => 2 ≤ r.length)).map
    (fun r => String.mk r)

/-! ### TF-IDF and cosine similarity for one pair of documents

`TfidfVectorizer().fit_transform([doc1, doc2])` counts token occurrences,
multiplies each count by the smoothed inverse document frequency
`ln((1 + n)/(1 + df)) + 1` with `n = 2` documents, and L2-normalises each
row (a zero row is left unchanged).  `linear_kernel` of the two normalised
rows is their dot product.  If neither document yields any token the
vectorizer raises `ValueError: empty vocabulary` (modelled as `none`). -/

/-- Number of the two documents containing token `t`. -/
def docFreq (toks1 toks2 : List String) (t : String) : ℕ :=
  (if t ∈ toks1 then 1 else 0) + (if t ∈ toks2 then 1 else 0)

/-- Smoothed inverse document frequency for 2 documents:
`idf d = ln(3 / (1 + d)) + 1`. -/
noncomputable def idf (d : ℕ) : ℝ := Real.log (3 / (1 + (d : ℝ))) + 1

/-- Raw (unnormalised) TF-IDF weight of token `t` in the document with
token list `toks`, with document frequencies taken over the pair
`(toks1, toks2)`. -/
noncomputable def tfidfRaw (toks1 toks2 toks : List String) (t : String) : ℝ :=
  (toks.count t : ℝ) * idf (docFreq toks1 toks2 t)

/-- Euclidean norm of a vector indexed by the vocabulary `V`. -/
noncomputable def l2norm (V : Finset String) (v : String → ℝ) : ℝ :=
  Real.sqrt (∑ t ∈ V, v t ^ 2)

/-- sklearn row normalisation: divide by the Euclidean norm, leaving a
zero row unchanged. -/
noncomputable def normalizeVec (V : Finset String) (v : String → ℝ) :
    String → ℝ :=
  if l2norm V v = 0 then v else fun t => v t / l2norm V v

/-- Dot product of the two L2-normalised TF-IDF vectors of the documents
with token lists `toks1` and `toks2` (the value of
`linear_kernel(tfidf[0:1], tfidf[1:2])[0,0]`). -/
noncomputable def scoreOf (toks1 toks2 : List String) : ℝ :=
  ∑ t ∈ (toks1 ++ toks2).toFinset,
    normalizeVec (toks1 ++ toks2).toFinset (tfidfRaw toks1 toks2 toks1) t *
      normalizeVec (toks1 ++ toks2).toFinset (tfidfRaw toks1 toks2 toks2) t

/-- Model of `TfidfVectorizer().fit_transform([doc1, doc2])` followed by
`linear_kernel`, on the token lists of the two documents: raises
(`none`) when the vocabulary is empty, i.e. when neither document has a
token. -/
noncomputable def tfidfScore (toks1 toks2 : List String) : Option ℝ :=
  if toks1 = [] ∧ toks2 = [] then none else some (scoreOf toks1 toks2)

/-- Model of `reduce(lambda x, y: f'{x} {y}', l)`: Python's `functools.reduce` with
no initialiser raises `TypeError` on an empty list and otherwise left-folds
the two-argument space-joining lambda. -/
def reduceSpace : List String → Option String
  | [] => none
  | x :: xs => some (xs.foldl (fun a b => a ++ (" ") ++ b) x)

/-- The space-joined document described by the spec: the chosen token field
of every item, in item order, joined by single spaces. -/
def specJoin : List String → String
  | [] => ("")
  | [x] => x
  | x :: xs => x ++ (" ") ++ specJoin xs

/-- Common body of the two `get_*_text_cosine_distance` functions, which
differ only in the item field they read (`sel`): return `0` if either
argument is float-typed or an empty list, otherwise build the two
documents with `reduce`, vectorize them with per-pair TF-IDF and return
their cosine similarity.  `none` models an uncaught exception. -/
noncomputable def cosineDistanceBy (sel : String × String → String)
    (los1 los2 : PyVal) : Option ℝ :=
  match los1, los2 with
  | .pyFloat, _ => some 0
  | _, .pyFloat => some 0
  | .pyList l1, .pyList l2 =>
    if l1.length = 0 ∨ l2.length = 0 then some 0
    else
      match reduceSpace (l1.map sel), reduceSpace (l2.map sel) with
      | some doc1, some doc2 => tfidfScore (tokenize doc1) (tokenize doc2)
      | _, _ => none

/-- The function `get_long_text_cosine_distance` (comp_distance.py lines 68-91): reads
field 0 (the long-form text) of each item. -/
noncomputable def get_long_text_cosine_distance : PyVal → PyVal → Option ℝ :=
  cosineDistanceBy Prod.fst

/-- The function `get_short_text_cosine_distance` (comp_distance.py lines 94-118):
identical except that it reads field 1 (the short-form text) of each item. -/
noncomputable def get_short_text_cosine_distance : PyVal → PyVal → Option ℝ :=
  cosineDistanceBy Prod.snd

/-! ### Grouped pipeline (comp_distance.py lines 132-166) -/

/-- One row of the working table: grouping key, sort key and the parsed
`items` cell.  Passthrough columns are not consumed by the pipeline and
are omitted. -/
structure Record where
  character_id : Int
  killmail_id : Int
  items : PyVal
deriving DecidableEq

/-- An entry of a score column: `np.nan` for the first row of a group, or
a computed similarity value. -/
inductive ScoreEntry where
  | nan : ScoreEntry
  | val (r : ℝ) : ScoreEntry

/-- An output row: the record together with its `(cos_dist_st, cos_dist_lt)`
entries (`cos_dist_st` is inserted before `cos_dist_lt`). -/
abbrev OutRow := Record × ScoreEntry × ScoreEntry

/-- The Python accumulation loop `for x in xs: out.append(f(x))` where a
call to `f` may raise: `none` as soon as one call raises, otherwise the
list of results in order. -/
def collectSome (f : α → Option β) : List α → Option (List β)
  | [] => some []
  | a :: as =>
    match f a with
    | none => none
    | some b => (collectSome f as).map (fun bs => b :: bs)

/-- The pair list built from a sorted group: `(items.shift()[i], items[i])`
for `i = 1 .. n-1`, i.e. `(previous row's items, current row's items)`. -/
def pairsOf (cells : List PyVal) : List (PyVal × PyVal) :=
  cells.zip cells.tail

/-- One score column of a group whose (sorted) `items` cells are `cells`:
starts with `np.nan`, then `f prev cur` for each adjacent pair.  `none`
models an exception escaping from a similarity call. -/
def cosColumn (f : PyVal → PyVal → Option ℝ) (cells : List PyVal) :
    Option (List ScoreEntry) :=
  (collectSome (fun p => f p.1 p.2) (pairsOf cells)).map
    (fun vs => ScoreEntry.nan :: vs.map ScoreEntry.val)

/-- Processing of one sorted group: compute both score columns and attach
them to the rows. -/
noncomputable def processGroup (g : List Record) : Option (List OutRow) :=
  match cosColumn get_long_text_cosine_distance (g.map Record.items),
      cosColumn get_short_text_cosine_distance (g.map Record.items) with
  | some lt, some st => some (g.zip (st.zip lt))
  | _, _ => none

/-- The keys iterated by `df.groupby('character_id')`: the distinct
`character_id` values in ascending order (pandas `groupby` sorts group
keys by default). -/
def groupKeys (df : List Record) : List Int :=
  ((df.map Record.character_id).dedup).mergeSort (fun a b => a ≤ b)

/-- The rows of the group with key `k`, in their original order. -/
def theGroup (df : List Record) (k : Int) : List Record :=
  df.filter (fun r => r.character_id = k)

/-- Model of `gp.sort_values(by=['killmail_id'])`: a sort by
`killmail_id`.  pandas' default `kind='quicksort'` does not specify the
relative order of rows with equal keys; the properties proved below do not
depend on how such ties are broken. -/
def sortGroup (g : List Record) : List Record :=
  g.mergeSort (fun a b => a.killmail_id ≤ b.killmail_id)

/-- The whole grouped computation followed by `pd.concat(groups)`: process
each group in key order and concatenate the results. -/
noncomputable def runPipeline (df : List Record) : Option (List OutRow) :=
  (collectSome (fun k => processGroup (sortGroup (theGroup df k)))
      (groupKeys df)).map List.flatten

/-! ### Helper lemmas: document building -/

theorem foldl_space_eq_specJoin (xs : List String) :
    ∀ x : String, xs.foldl (fun a b => a ++ (" ") ++ b) x = specJoin (x :: xs) := by
  induction xs with
  | nil => intro x; rfl
  | cons y ys ih =>
    intro x
    show ys.foldl _ (x ++ (" ") ++ y) = _
    rw [ih (x ++ (" ") ++ y)]
    cases ys with
    | nil => rfl
    | cons z zs =>
      show (x ++ (" ") ++ y) ++ (" ") ++ specJoin (z :: zs)
          = x ++ (" ") ++ (y ++ (" ") ++ specJoin (z :: zs))
      simp [String.append_assoc]

theorem reduceSpace_eq_specJoin (l : List String) (h : l ≠ []) :
    reduceSpace l = some (specJoin l) := by
  cases l with
  | nil => exact absurd rfl h
  | cons x xs => exact congrArg some (foldl_space_eq_specJoin xs x)

theorem tokenRunsAux_append_sep (sep : Char) (hsep : isWordChar sep = false) :
    ∀ (u cur v : List Char),
      tokenRunsAux cur (u ++ sep :: v)
        = tokenRunsAux cur u ++ tokenRunsAux [] v := by
  intro u
  induction u with
  | nil =>
    intro cur v
    show tokenRunsAux cur (sep :: v) = tokenRunsAux cur [] ++ tokenRunsAux [] v
    simp [tokenRunsAux, hsep]
  | cons c u2 ih =>
    intro cur v
    by_cases hc : isWordChar c
    · show tokenRunsAux cur (c :: (u2 ++ sep :: v))
          = tokenRunsAux cur (c :: u2) ++ tokenRunsAux [] v
      simp only [tokenRunsAux, hc, if_true]
      exact ih (c :: cur) v
    · show tokenRunsAux cur (c :: (u2 ++ sep :: v))
          = tokenRunsAux cur (c :: u2) ++ tokenRunsAux [] v
      simp only [tokenRunsAux, hc, if_false, Bool.false_eq_true]
      rw [ih [] v, List.append_assoc]

/-- A space splits the token runs: tokenization distributes over the
space-joined concatenation of two documents (for any notion of word
character under which a space is not a word character). -/
theorem tokenize_append_space (s1 s2 : String) :
    tokenize (s1 ++ (" ") ++ s2) = tokenize s1 ++ tokenize s2 := by
  unfold tokenize
  have hdata : (s1 ++ (" ") ++ s2).data = s1.data ++ ' ' :: s2.data := by
    simp [String.data_append]
  rw [hdata, List.map_append, List.map_cons]
  show (((tokenRunsAux [] ((s1.data.map Char.toLower) ++
      ' '.toLower :: (s2.data.map Char.toLower))).filter _).map _) = _
  rw [show ' '.toLower = ' ' from rfl,
    tokenRunsAux_append_sep ' ' rfl (s1.data.map Char.toLower)
      [] (s2.data.map Char.toLower),
    List.filter_append, List.map_append]
  rfl

/-- Tokenization of the space-joined document is the concatenation of the
per-item tokenizations: tokens never span two items. -/
theorem tokenize_specJoin_flatMap :
    ∀ (l : List String), tokenize (specJoin l) = l.flatMap tokenize := by
  intro l
  induction l with
  | nil => rfl
  | cons x xs ih =>
    cases xs with
    | nil => show tokenize x = tokenize x ++ [] ; rw [List.append_nil]
    | cons y ys =>
      show tokenize (x ++ (" ") ++ specJoin (y :: ys)) = _
      rw [tokenize_append_space, ih]
      simp [List.flatMap_cons, List.append_assoc]

/-! ### Helper lemmas: TF-IDF arithmetic -/

theorem docFreq_le_two (t1 t2 : List String) (t : String) :
    docFreq t1 t2 t ≤ 2 := by
  unfold docFreq
  split <;> split <;> simp

theorem one_le_idf {d : ℕ} (hd : d ≤ 2) : 1 ≤ idf d := by
  unfold idf
  have hdpos : (0 : ℝ) < 1 + (d : ℝ) := by positivity
  have h1 : (1 : ℝ) ≤ 3 / (1 + (d : ℝ)) := by
    rw [le_div_iff₀ hdpos]
    have : (d : ℝ) ≤ 2 := by exact_mod_cast hd
    linarith
  have := Real.log_nonneg h1
  linarith

theorem tfidfRaw_nonneg (t1 t2 toks : List String) (t : String) :
    0 ≤ tfidfRaw t1 t2 toks t := by
  unfold tfidfRaw
  have h := one_le_idf (docFreq_le_two t1 t2 t)
  have hc : (0 : ℝ) ≤ (toks.count t : ℝ) := Nat.cast_nonneg _
  nlinarith

theorem normalizeVec_nonneg (V : Finset String) (v : String → ℝ)
    (hv : ∀ t, 0 ≤ v t) (t : String) : 0 ≤ normalizeVec V v t := by
  unfold normalizeVec
  split
  · exact hv t
  · exact div_nonneg (hv t) (Real.sqrt_nonneg _)

theorem sum_sq_normalizeVec_eq_one (V : Finset String) (v : String → ℝ)
    (h : l2norm V v ≠ 0) :
    ∑ t ∈ V, normalizeVec V v t ^ 2 = 1 := by
  have hS0 : (0 : ℝ) ≤ ∑ t ∈ V, v t ^ 2 :=
    Finset.sum_nonneg fun t _ => sq_nonneg _
  have hSne : ∑ t ∈ V, v t ^ 2 ≠ 0 := by
    intro hc
    exact h (by rw [l2norm, hc, Real.sqrt_zero])
  rw [normalizeVec, if_neg h]
  have hstep : ∀ t ∈ V, (v t / l2norm V v) ^ 2 = v t ^ 2 / (∑ s ∈ V, v s ^ 2) := by
    intro t _
    rw [div_pow, l2norm, Real.sq_sqrt hS0]
  rw [Finset.sum_congr rfl hstep, ← Finset.sum_div, div_self hSne]

theorem sum_sq_normalizeVec_le_one (V : Finset String) (v : String → ℝ) :
    ∑ t ∈ V, normalizeVec V v t ^ 2 ≤ 1 := by
  by_cases h : l2norm V v = 0
  · have hS0 : (0 : ℝ) ≤ ∑ t ∈ V, v t ^ 2 :=
      Finset.sum_nonneg fun t _ => sq_nonneg _
    have hS : ∑ t ∈ V, v t ^ 2 = 0 := by
      have h' := h
      rw [l2norm] at h'
      exact (Real.sqrt_eq_zero hS0).mp h'
    rw [normalizeVec, if_pos h, hS]
    norm_num
  · rw [sum_sq_normalizeVec_eq_one V v h]

theorem scoreOf_nonneg (t1 t2 : List String) : 0 ≤ scoreOf t1 t2 := by
  unfold scoreOf
  refine Finset.sum_nonneg fun t _ => mul_nonneg ?_ ?_
  · exact normalizeVec_nonneg _ _ (tfidfRaw_nonneg t1 t2 t1) t
  · exact normalizeVec_nonneg _ _ (tfidfRaw_nonneg t1 t2 t2) t

theorem scoreOf_le_one (t1 t2 : List String) : scoreOf t1 t2 ≤ 1 := by
  unfold scoreOf
  have hcs := Finset.sum_mul_sq_le_sq_mul_sq (t1 ++ t2).toFinset
    (normalizeVec (t1 ++ t2).toFinset (tfidfRaw t1 t2 t1))
    (normalizeVec (t1 ++ t2).toFinset (tfidfRaw t1 t2 t2))
  have hsa := sum_sq_normalizeVec_le_one (t1 ++ t2).toFinset (tfidfRaw t1 t2 t1)
  have hsb := sum_sq_normalizeVec_le_one (t1 ++ t2).toFinset (tfidfRaw t1 t2 t2)
  have hsa0 : (0 : ℝ) ≤ ∑ t ∈ (t1 ++ t2).toFinset,
      normalizeVec (t1 ++ t2).toFinset (tfidfRaw t1 t2 t1) t ^ 2 :=
    Finset.sum_nonneg fun t _ => sq_nonneg _
  have hsb0 : (0 : ℝ) ≤ ∑ t ∈ (t1 ++ t2).toFinset,
      normalizeVec (t1 ++ t2).toFinset (tfidfRaw t1 t2 t2) t ^ 2 :=
    Finset.sum_nonneg fun t _ => sq_nonneg _
  have h0 : 0 ≤ ∑ t ∈ (t1 ++ t2).toFinset,
      normalizeVec (t1 ++ t2).toFinset (tfidfRaw t1 t2 t1) t *
        normalizeVec (t1 ++ t2).toFinset (tfidfRaw t1 t2 t2) t := by
    refine Finset.sum_nonneg fun t _ => mul_nonneg ?_ ?_
    · exact normalizeVec_nonneg _ _ (tfidfRaw_nonneg t1 t2 t1) t
    · exact normalizeVec_nonneg _ _ (tfidfRaw_nonneg t1 t2 t2) t
  nlinarith [hcs, hsa, hsb, hsa0, hsb0, h0]

theorem scoreOf_eq_one_of_perm (t1 t2 : List String) (hp : t1.Perm t2)
    (hne : t1 ≠ []) : scoreOf t1 t2 = 1 := by
  have hv : tfidfRaw t1 t2 t2 = tfidfRaw t1 t2 t1 := by
    funext t
    unfold tfidfRaw
    rw [hp.count_eq t]
  obtain ⟨x, hx⟩ := List.exists_mem_of_ne_nil t1 hne
  have hvx : (1 : ℝ) ≤ tfidfRaw t1 t2 t1 x := by
    unfold tfidfRaw
    have hc : (1 : ℝ) ≤ (t1.count x : ℝ) := by
      exact_mod_cast List.count_pos_iff.mpr hx
    have hi := one_le_idf (docFreq_le_two t1 t2 x)
    nlinarith
  have hxV : x ∈ (t1 ++ t2).toFinset := by
    rw [List.mem_toFinset, List.mem_append]
    exact Or.inl hx
  have hS : (1 : ℝ) ≤ ∑ t ∈ (t1 ++ t2).toFinset, tfidfRaw t1 t2 t1 t ^ 2 := by
    have hle : tfidfRaw t1 t2 t1 x ^ 2 ≤
        ∑ t ∈ (t1 ++ t2).toFinset, tfidfRaw t1 t2 t1 t ^ 2 :=
      Finset.single_le_sum (f := fun t => tfidfRaw t1 t2 t1 t ^ 2)
        (fun t _ => sq_nonneg _) hxV
    nlinarith [hle, hvx]
  have hnorm : l2norm (t1 ++ t2).toFinset (tfidfRaw t1 t2 t1) ≠ 0 := by
    rw [l2norm]
    intro hc
    have h0 := (Real.sqrt_eq_zero (by linarith)).mp hc
    linarith
  unfold scoreOf
  rw [hv]
  have hsq : ∀ t ∈ (t1 ++ t2).toFinset,
      normalizeVec (t1 ++ t2).toFinset (tfidfRaw t1 t2 t1) t *
        normalizeVec (t1 ++ t2).toFinset (tfidfRaw t1 t2 t1) t =
      normalizeVec (t1 ++ t2).toFinset (tfidfRaw t1 t2 t1) t ^ 2 :=
    fun t _ => (pow_two _).symm
  rw [Finset.sum_congr rfl hsq, sum_sq_normalizeVec_eq_one _ _ hnorm]

theorem scoreOf_comm (t1 t2 : List String) : scoreOf t1 t2 = scoreOf t2 t1 := by
  have hV : (t1 ++ t2).toFinset = (t2 ++ t1).toFinset := by
    rw [List.toFinset_append, List.toFinset_append, Finset.union_comm]
  have hdf : ∀ toks, tfidfRaw t1 t2 toks = tfidfRaw t2 t1 toks := by
    intro toks
    funext t
    unfold tfidfRaw docFreq
    rw [Nat.add_comm (if t ∈ t1 then 1 else 0)]
  unfold scoreOf
  rw [hV, hdf t1, hdf t2]
  exact Finset.sum_congr rfl fun t _ => mul_comm _ _

theorem tfidfScore_comm (t1 t2 : List String) :
    tfidfScore t1 t2 = tfidfScore t2 t1 := by
  unfold tfidfScore
  by_cases h1 : t1 = [] <;> by_cases h2 : t2 = [] <;>
    simp [h1, h2] <;> rw [scoreOf_comm]

theorem cosineDistanceBy_comm (sel : String × String → String) (a b : PyVal) :
    cosineDistanceBy sel a b = cosineDistanceBy sel b a := by
  cases a with
  | pyFloat => cases b <;> rfl
  | pyList l1 =>
    cases b with
    | pyFloat => rfl
    | pyList l2 =>
      simp only [cosineDistanceBy]
      by_cases h : l1.length = 0 ∨ l2.length = 0
      · rw [if_pos h, if_pos h.symm]
      · rw [if_neg h, if_neg fun hc => h hc.symm]
        cases hr1 : reduceSpace (l1.map sel) <;>
          cases hr2 : reduceSpace (l2.map sel) <;>
          simp [tfidfScore_comm]

/-- Inversion: every value actually returned by `cosineDistanceBy` is
either the literal `0` of the degenerate-input branches or a normalised
TF-IDF dot product. -/
theorem cosineDistanceBy_eq_some (sel : String × String → String)
    (a b : PyVal) (r : ℝ) (h : cosineDistanceBy sel a b = some r) :
    r = 0 ∨ ∃ t1 t2, r = scoreOf t1 t2 := by
  cases a with
  | pyFloat =>
    simp only [cosineDistanceBy] at h
    exact Or.inl (Option.some.inj h).symm
  | pyList l1 =>
    cases b with
    | pyFloat =>
      simp only [cosineDistanceBy] at h
      exact Or.inl (Option.some.inj h).symm
    | pyList l2 =>
      simp only [cosineDistanceBy] at h
      by_cases hg : l1.length = 0 ∨ l2.length = 0
      · rw [if_pos hg] at h
        exact Or.inl (Option.some.inj h).symm
      · rw [if_neg hg] at h
        cases hr1 : reduceSpace (l1.map sel) with
        | none => rw [hr1] at h; cases hr2 : reduceSpace (l2.map sel) <;>
            rw [hr2] at h <;> exact absurd h (by simp)
        | some d1 =>
          rw [hr1] at h
          cases hr2 : reduceSpace (l2.map sel) with
          | none => rw [hr2] at h; exact absurd h (by simp)
          | some d2 =>
            rw [hr2] at h
            simp only [tfidfScore] at h
            by_cases he : tokenize d1 = [] ∧ tokenize d2 = []
            · rw [if_pos he] at h; exact absurd h (by simp)
            · rw [if_neg he] at h
              exact Or.inr ⟨_, _, (Option.some.inj h).symm⟩

/-- The two degenerate-input guards (float-typed argument, zero-length
list) both return the literal `0`. -/
theorem cosineDistanceBy_guard (sel : String × String → String)
    (a b : PyVal)
    (h : a = .pyFloat ∨ b = .pyFloat ∨ a = .pyList [] ∨ b = .pyList []) :
    cosineDistanceBy sel a b = some 0 := by
  rcases h with rfl | rfl | rfl | rfl
  · cases b <;> rfl
  · cases a <;> rfl
  · cases b with
    | pyFloat => rfl
    | pyList l2 => simp [cosineDistanceBy]
  · cases a with
    | pyFloat => rfl
    | pyList l1 => simp [cosineDistanceBy]

/-- The non-degenerate branch: documents are built by `reduce` and fed to
the per-pair vectorizer. -/
theorem cosineDistanceBy_eq_one (sel : String × String → String)
    (l1 l2 : List (String × String)) (h1 : l1 ≠ []) (h2 : l2 ≠ [])
    (hp : (tokenize (specJoin (l1.map sel))).Perm
      (tokenize (specJoin (l2.map sel))))
    (hne : tokenize (specJoin (l1.map sel)) ≠ []) :
    cosineDistanceBy sel (.pyList l1) (.pyList l2) = some 1 := by
  have hg : ¬(l1.length = 0 ∨ l2.length = 0) := by
    simp only [List.length_eq_zero]
    rintro (rfl | rfl)
    · exact h1 rfl
    · exact h2 rfl
  have hm1 : l1.map sel ≠ [] := by simp [List.map_eq_nil_iff, h1]
  have hm2 : l2.map sel ≠ [] := by simp [List.map_eq_nil_iff, h2]
  have hcond : ¬(tokenize (specJoin (l1.map sel)) = [] ∧
      tokenize (specJoin (l2.map sel)) = []) := fun hc => hne hc.1
  simp only [cosineDistanceBy, if_neg hg,
    reduceSpace_eq_specJoin _ hm1, reduceSpace_eq_specJoin _ hm2]
  simp only [tfidfScore, if_neg hcond]
  exact congrArg some (scoreOf_eq_one_of_perm _ _ hp hne)

/-! ### Helper lemmas: the grouped pipeline -/

theorem collectSome_forall₂ {α β : Type} (f : α → Option β) :
    ∀ (l : List α) (l2 : List β), collectSome f l = some l2 →
      List.Forall₂ (fun a b => f a = some b) l l2 := by
  intro l
  induction l with
  | nil =>
    intro l2 h
    simp only [collectSome, Option.some.injEq] at h
    rw [← h]
    exact List.Forall₂.nil
  | cons a as ih =>
    intro l2 h
    simp only [collectSome] at h
    cases hfa : f a with
    | none => rw [hfa] at h; exact absurd h (by simp)
    | some b =>
      rw [hfa] at h
      cases hrest : collectSome f as with
      | none => rw [hrest] at h; exact absurd h (by simp)
      | some bs =>
        rw [hrest] at h
        replace h : some (b :: bs) = some l2 := h
        rw [← Option.some.inj h]
        exact List.Forall₂.cons hfa (ih bs hrest)

theorem collectSome_length {α β : Type} (f : α → Option β) (l : List α)
    (l2 : List β) (h : collectSome f l = some l2) : l2.length = l.length :=
  (collectSome_forall₂ f l l2 h).length_eq.symm

theorem cosColumn_parts (f : PyVal → PyVal → Option ℝ) (cells : List PyVal)
    (col : List ScoreEntry) (h : cosColumn f cells = some col) :
    ∃ vs, collectSome (fun p => f p.1 p.2) (pairsOf cells) = some vs ∧
      col = ScoreEntry.nan :: vs.map ScoreEntry.val := by
  unfold cosColumn at h
  cases hcs : collectSome (fun p => f p.1 p.2) (pairsOf cells) with
  | none => rw [hcs] at h; exact absurd h (by simp)
  | some vs =>
    rw [hcs] at h
    replace h : some (ScoreEntry.nan :: vs.map ScoreEntry.val) = some col := h
    exact ⟨vs, rfl, (Option.some.inj h).symm⟩

theorem pairsOf_length (cells : List PyVal) :
    (pairsOf cells).length = min cells.length (cells.length - 1) := by
  unfold pairsOf
  rw [List.length_zip, List.length_tail]

theorem cosColumn_length (f : PyVal → PyVal → Option ℝ) (cells : List PyVal)
    (col : List ScoreEntry) (hne : cells ≠ [])
    (h : cosColumn f cells = some col) : col.length = cells.length := by
  obtain ⟨vs, hvs, hcol⟩ := cosColumn_parts f cells col h
  have hlen := collectSome_length _ _ _ hvs
  have hp := pairsOf_length cells
  have hpos : 0 < cells.length := List.length_pos.mpr hne
  rw [hcol]
  simp only [List.length_cons, List.length_map]
  omega

theorem cosColumn_head (f : PyVal → PyVal → Option ℝ) (cells : List PyVal)
    (col : List ScoreEntry) (h : cosColumn f cells = some col) :
    col.head? = some ScoreEntry.nan := by
  obtain ⟨vs, _, hcol⟩ := cosColumn_parts f cells col h
  rw [hcol]
  rfl

theorem cosColumn_get (f : PyVal → PyVal → Option ℝ) (cells : List PyVal)
    (col : List ScoreEntry) (h : cosColumn f cells = some col)
    (i : ℕ) (hi1 : 1 ≤ i) (hi2 : i < cells.length) :
    ∃ r, f (cells.get ⟨i - 1, by omega⟩) (cells.get ⟨i, hi2⟩) = some r ∧
      col[i]? = some (ScoreEntry.val r) := by
  obtain ⟨vs, hvs, hcol⟩ := cosColumn_parts f cells col h
  have hlen := collectSome_length _ _ _ hvs
  have hp := pairsOf_length cells
  have hget := (List.forall₂_iff_get.mp (collectSome_forall₂ _ _ _ hvs)).2
  obtain ⟨j, rfl⟩ : ∃ j, i = j + 1 := ⟨i - 1, by omega⟩
  have hj1 : j < (pairsOf cells).length := by omega
  have hj2 : j < vs.length := by omega
  refine ⟨vs.get ⟨j, hj2⟩, ?_, ?_⟩
  · have := hget j hj1 hj2
    have hpair : (pairsOf cells).get ⟨j, hj1⟩ =
        (cells.get ⟨j + 1 - 1, by omega⟩, cells.get ⟨j + 1, hi2⟩) := by
      unfold pairsOf
      have h1 : j < cells.length := by omega
      have h2 : j < cells.tail.length := by
        rw [List.length_tail]; omega
      simp only [List.get_eq_getElem, List.getElem_zip, List.getElem_tail]
      rfl
    rw [hpair] at this
    exact this
  · rw [hcol]
    rw [List.getElem?_cons_succ, List.getElem?_map,
      List.getElem?_eq_getElem hj2]
    rfl

theorem processGroup_fst (g : List Record) (rows : List OutRow)
    (h : processGroup g = some rows) :
    rows.map Prod.fst = g ∧ rows.length = g.length := by
  unfold processGroup at h
  cases hlt : cosColumn get_long_text_cosine_distance (g.map Record.items) with
  | none => rw [hlt] at h; exact absurd h (by simp)
  | some lt =>
    rw [hlt] at h
    cases hst : cosColumn get_short_text_cosine_distance (g.map Record.items) with
    | none => rw [hst] at h; exact absurd h (by simp)
    | some st =>
      rw [hst] at h
      simp only [Option.some.injEq] at h
      have hzlen : g.length ≤ (st.zip lt).length := by
        by_cases hg : g = []
        · subst hg; simp
        · have hm : g.map Record.items ≠ [] := by
            simp [List.map_eq_nil_iff, hg]
          have h1 := cosColumn_length _ _ _ hm hlt
          have h2 := cosColumn_length _ _ _ hm hst
          rw [List.length_zip]
          simp only [List.length_map] at h1 h2
          omega
      constructor
      · rw [← h]
        exact List.map_fst_zip g (st.zip lt) hzlen
      · rw [← h, List.length_zip]
        omega

theorem flatMap_congr {α β : Type} {f g : α → List β} :
    ∀ (l : List α), (∀ a ∈ l, f a = g a) → l.flatMap f = l.flatMap g := by
  intro l
  induction l with
  | nil => intro _; rfl
  | cons a as ih =>
    intro h
    rw [List.flatMap_cons, List.flatMap_cons, h a (List.mem_cons_self a as),
      ih fun b hb => h b (List.mem_cons_of_mem a hb)]

/-- Partitioning: concatenating, over a duplicate-free list of keys that
covers every row, the rows whose key equals each key yields a permutation
of the original rows. -/
theorem flatMap_filter_perm {α : Type} (key : α → Int) :
    ∀ (keys : List Int), keys.Nodup → ∀ (l : List α),
      (∀ r ∈ l, key r ∈ keys) →
      (keys.flatMap fun k => l.filter fun r => key r = k).Perm l := by
  intro keys
  induction keys with
  | nil =>
    intro _ l hcov
    have hl : l = [] := List.eq_nil_iff_forall_not_mem.mpr fun r hr => by
      simpa using hcov r hr
    simp [hl]
  | cons k ks ih =>
    intro hnd l hcov
    rw [List.nodup_cons] at hnd
    rw [List.flatMap_cons]
    have hswap : ∀ k2 ∈ ks, (l.filter fun r => key r = k2) =
        ((l.filter fun r => !(decide (key r = k))).filter
          fun r => key r = k2) := by
      intro k2 hk2
      have hne : k2 ≠ k := fun hc => hnd.1 (hc ▸ hk2)
      rw [List.filter_filter]
      refine (List.filter_congr fun a _ => ?_).symm
      by_cases hak : key a = k2
      · simp [hak, hne]
      · simp [hak]
    rw [flatMap_congr ks hswap]
    have hcov2 : ∀ r ∈ l.filter fun r => !(decide (key r = k)),
        key r ∈ ks := by
      intro r hr
      obtain ⟨hrl, hrb⟩ := List.mem_filter.mp hr
      have hrk : key r ≠ k := by simpa using hrb
      rcases List.mem_cons.mp (hcov r hrl) with hc | hc
      · exact absurd hc hrk
      · exact hc
    have ihl := ih hnd.2 (l.filter fun r => !(decide (key r = k))) hcov2
    exact (ihl.append_left (l.filter fun r => key r = k)).trans
      (List.filter_append_perm (fun r => decide (key r = k)) l)

theorem forall₂_map_of_rel {α β γ : Type} (R : α → β → Prop) (f : β → γ)
    (g : α → γ) (h : ∀ a b, R a b → f b = g a) :
    ∀ {l1 : List α} {l2 : List β}, List.Forall₂ R l1 l2 →
      l2.map f = l1.map g := by
  intro l1 l2 hf
  induction hf with
  | nil => rfl
  | cons hr _ ih => simp only [List.map_cons, h _ _ hr, ih]

theorem runPipeline_parts (df : List Record) (out : List OutRow)
    (h : runPipeline df = some out) :
    ∃ parts, List.Forall₂ (fun k part =>
        processGroup (sortGroup (theGroup df k)) = some part)
      (groupKeys df) parts ∧ out = parts.flatten := by
  unfold runPipeline at h
  cases hcs : collectSome (fun k => processGroup (sortGroup (theGroup df k)))
      (groupKeys df) with
  | none => rw [hcs] at h; exact absurd h (by simp)
  | some parts =>
    rw [hcs] at h
    replace h : some parts.flatten = some out := h
    exact ⟨parts, collectSome_forall₂ _ _ _ hcs, (Option.some.inj h).symm⟩

theorem groupKeys_nodup (df : List Record) : (groupKeys df).Nodup := by
  unfold groupKeys
  exact ((List.mergeSort_perm _ _).nodup_iff).mpr (List.nodup_dedup _)

theorem mem_groupKeys (df : List Record) (r : Record) (hr : r ∈ df) :
    r.character_id ∈ groupKeys df := by
  unfold groupKeys
  rw [(List.mergeSort_perm _ _).mem_iff]
  exact List.mem_dedup.mpr (List.mem_map_of_mem Record.character_id hr)

theorem groupKeys_sorted (df : List Record) :
    (groupKeys df).Sorted (· ≤ ·) := by
  unfold groupKeys
  exact List.sorted_mergeSort' _

theorem runPipeline_rows_perm (df : List Record) (out : List OutRow)
    (h : runPipeline df = some out) : (out.map Prod.fst).Perm df := by
  obtain ⟨parts, hf, rfl⟩ := runPipeline_parts df out h
  have hmap : parts.map (List.map Prod.fst)
      = (groupKeys df).map fun k => sortGroup (theGroup df k) :=
    forall₂_map_of_rel
      (fun k part => processGroup (sortGroup (theGroup df k)) = some part)
      (List.map Prod.fst) (fun k => sortGroup (theGroup df k))
      (fun k part hk => (processGroup_fst _ _ hk).1) hf
  rw [List.map_flatten, hmap, ← List.flatMap_def]
  have hstep : ∀ k ∈ groupKeys df,
      (sortGroup (theGroup df k)).Perm (theGroup df k) :=
    fun k _ => List.mergeSort_perm _ _
  exact (List.Perm.flatMap_left _ hstep).trans
    (flatMap_filter_perm Record.character_id (groupKeys df)
      (groupKeys_nodup df) df (fun r hr => mem_groupKeys df r hr))

/-! ### The claims -/

/-- Claim C1: for every pair of inputs to either similarity function, if
either side is the "missing" sentinel (a non-list, float-typed value) or
either side is a list with zero entries, then both
`get_long_text_cosine_distance` and `get_short_text_cosine_distance`
return exactly `0` (not NaN), without attempting vectorization: the
guarded branches return the literal `0` before any document is built. -/
theorem claim_C1 (a b : PyVal)
    (h : a = .pyFloat ∨ b = .pyFloat ∨ a = .pyList [] ∨ b = .pyList []) :
    get_long_text_cosine_distance a b = some 0 ∧
    get_short_text_cosine_distance a b = some 0 :=
  ⟨cosineDistanceBy_guard Prod.fst a b h,
   cosineDistanceBy_guard Prod.snd a b h⟩

/-- Witness for C1 at a concrete input: the first argument is the
float-typed sentinel. -/
theorem claim_C1_witness :
    get_long_text_cosine_distance PyVal.pyFloat
        (PyVal.pyList [("Rifle", "Gun")]) = some 0 ∧
    get_short_text_cosine_distance PyVal.pyFloat
        (PyVal.pyList [("Rifle", "Gun")]) = some 0 :=
  claim_C1 PyVal.pyFloat (PyVal.pyList [("Rifle", "Gun")]) (Or.inl rfl)

/-- Claim C2 counterexample: two identical one-item lists whose texts are
single characters.  The default vectorizer discards tokens shorter than
two characters, so both documents tokenize to nothing and
`TfidfVectorizer().fit_transform` raises `ValueError: empty vocabulary`
(modelled as `none`): the functions do not return 1 (they do not return at
all). -/
theorem claim_C2_counterexample :
    get_long_text_cosine_distance (PyVal.pyList [("a", "b")])
        (PyVal.pyList [("a", "b")]) = none ∧
    get_short_text_cosine_distance (PyVal.pyList [("a", "b")])
        (PyVal.pyList [("a", "b")]) = none :=
  ⟨rfl, rfl⟩

/-- Claim C2 (amended): for every pair of non-empty item lists that are
identical as multisets of items (same items, same or different order) —
which makes the two documents of each vectorization permutations of the
same item texts, so their token multisets coincide under any tokenizer —
and whose documents contain at least one extractable token (a run of two
or more word characters), both similarity functions return exactly `1`
(hence certainly within tolerance `1e-9`).  The item-level permutation
hypothesis keeps the statement independent of tokenizer internals; the
two token-existence hypotheses transfer to the Unicode tokenizer because
a model token is contained in a real token (see `tokenize`). -/
theorem claim_C2 (l1 l2 : List (String × String))
    (h1 : l1 ≠ []) (hp : l1.Perm l2)
    (hnlt : tokenize (specJoin (l1.map Prod.fst)) ≠ [])
    (hnst : tokenize (specJoin (l1.map Prod.snd)) ≠ []) :
    get_long_text_cosine_distance (.pyList l1) (.pyList l2) = some 1 ∧
    get_short_text_cosine_distance (.pyList l1) (.pyList l2) = some 1 := by
  have h2 : l2 ≠ [] := by
    intro hc
    subst hc
    exact h1 hp.eq_nil
  have hperm : ∀ sel : String × String → String,
      (tokenize (specJoin (l1.map sel))).Perm
        (tokenize (specJoin (l2.map sel))) := by
    intro sel
    rw [tokenize_specJoin_flatMap, tokenize_specJoin_flatMap]
    exact (hp.map sel).flatMap_right tokenize
  exact ⟨cosineDistanceBy_eq_one Prod.fst l1 l2 h1 h2 (hperm Prod.fst) hnlt,
    cosineDistanceBy_eq_one Prod.snd l1 l2 h1 h2 (hperm Prod.snd) hnst⟩

/-- Witness for C2 at a concrete input: the same two items in opposite
orders on the two sides. -/
theorem claim_C2_witness :
    get_long_text_cosine_distance
        (PyVal.pyList [("Rifle", "Gun"), ("Armor", "Mod")])
        (PyVal.pyList [("Armor", "Mod"), ("Rifle", "Gun")]) = some 1 ∧
    get_short_text_cosine_distance
        (PyVal.pyList [("Rifle", "Gun"), ("Armor", "Mod")])
        (PyVal.pyList [("Armor", "Mod"), ("Rifle", "Gun")]) = some 1 :=
  claim_C2 [("Rifle", "Gun"), ("Armor", "Mod")]
    [("Armor", "Mod"), ("Rifle", "Gun")]
    (by decide) (by decide) (by decide) (by decide)

/-- Claim C3: for every partition with item cells `cells` of size `n ≥ 1`,
each of the two score columns, when its computation completes, has length
exactly `n`, position 0 is the missing value `np.nan`, and every position
`i ∈ 1..n-1` holds the similarity of the pair `(cells[i-1], cells[i])`. -/
theorem claim_C3 (cells : List PyVal) (colLT colST : List ScoreEntry)
    (hne : cells ≠ [])
    (hlt : cosColumn get_long_text_cosine_distance cells = some colLT)
    (hst : cosColumn get_short_text_cosine_distance cells = some colST) :
    colLT.length = cells.length ∧ colST.length = cells.length ∧
    colLT.head? = some ScoreEntry.nan ∧ colST.head? = some ScoreEntry.nan ∧
    ∀ i (hi1 : 1 ≤ i) (hi2 : i < cells.length),
      (∃ r, get_long_text_cosine_distance (cells.get ⟨i - 1, by omega⟩)
          (cells.get ⟨i, hi2⟩) = some r ∧
          colLT[i]? = some (ScoreEntry.val r)) ∧
      (∃ s, get_short_text_cosine_distance (cells.get ⟨i - 1, by omega⟩)
          (cells.get ⟨i, hi2⟩) = some s ∧
          colST[i]? = some (ScoreEntry.val s)) :=
  ⟨cosColumn_length _ _ _ hne hlt, cosColumn_length _ _ _ hne hst,
   cosColumn_head _ _ _ hlt, cosColumn_head _ _ _ hst,
   fun i hi1 hi2 =>
     ⟨cosColumn_get _ _ _ hlt i hi1 hi2, cosColumn_get _ _ _ hst i hi1 hi2⟩⟩

/-- Witness for C3 at a concrete two-row partition. -/
theorem claim_C3_witness :
    ([ScoreEntry.nan, ScoreEntry.val (scoreOf ["ab"] ["ab"])].length
      = [PyVal.pyList [("ab", "cd")], PyVal.pyList [("ab", "cd")]].length) ∧
    ([ScoreEntry.nan, ScoreEntry.val (scoreOf ["cd"] ["cd"])].head?
      = some ScoreEntry.nan) :=
  ⟨(claim_C3 [PyVal.pyList [("ab", "cd")], PyVal.pyList [("ab", "cd")]]
      [ScoreEntry.nan, ScoreEntry.val (scoreOf ["ab"] ["ab"])]
      [ScoreEntry.nan, ScoreEntry.val (scoreOf ["cd"] ["cd"])]
      (by decide) rfl rfl).1,
   (claim_C3 [PyVal.pyList [("ab", "cd")], PyVal.pyList [("ab", "cd")]]
      [ScoreEntry.nan, ScoreEntry.val (scoreOf ["ab"] ["ab"])]
      [ScoreEntry.nan, ScoreEntry.val (scoreOf ["cd"] ["cd"])]
      (by decide) rfl rfl).2.2.2.1⟩

/-- Claim C5 counterexample: on a table that lacks the three ISK columns,
`df.drop(columns=['HighSlotISK','MidSlotISK','LowSlotISK'])` raises a
`KeyError` (pandas default `errors='raise'`), modelled as `none`: absence
is not tolerated. -/
theorem claim_C5_counterexample :
    dropColumns ["character_id", "killmail_id", "items"] iskCols = none :=
  rfl

/-- Claim C5 (amended): the Loader drops the three columns `HighSlotISK`,
`MidSlotISK`, `LowSlotISK` when all of them are present (and the result
contains none of them); when any of them is absent the drop raises a
`KeyError` instead of being a no-op. -/
theorem claim_C5 (schema : List String)
    (h1 : ("HighSlotISK" : String) ∈ schema)
    (h2 : ("MidSlotISK" : String) ∈ schema)
    (h3 : ("LowSlotISK" : String) ∈ schema) :
    dropColumns schema iskCols
      = some (schema.filter fun c => !iskCols.contains c) := by
  unfold dropColumns
  rw [if_pos]
  rw [List.all_eq_true]
  intro c hc
  simp only [iskCols, List.mem_cons, List.not_mem_nil, or_false] at hc
  rcases hc with rfl | rfl | rfl
  · simpa using h1
  · simpa using h2
  · simpa using h3

/-- Witness for C5 at a concrete schema containing all three columns. -/
theorem claim_C5_witness :
    dropColumns
        ["character_id", "killmail_id", "HighSlotISK", "MidSlotISK",
          "LowSlotISK", "items"] iskCols
      = some (["character_id", "killmail_id", "HighSlotISK", "MidSlotISK",
          "LowSlotISK", "items"].filter fun c => !iskCols.contains c) :=
  claim_C5 _ (by decide) (by decide) (by decide)

/-- Claim C6 counterexample: applying `literal_eval` over an items column
that contains a missing cell (the float `nan` produced by
`pandas.read_csv` for an empty field) raises
`ValueError: malformed node or string` and aborts the run (modelled as
`none`): the unparseable value is not preserved as a sentinel. -/
theorem claim_C6_counterexample :
    collectSome literalEval
      [CsvCell.lit (PyVal.pyList [("Rifle", "Gun")]), CsvCell.missing]
      = none := rfl

/-- Claim C6 (amended): the parsing step turns each parseable cell into
its value — a list-of-pairs encoding becomes the structured list, and a
scalar literal becomes the float sentinel, which is distinguishable from
every list — but a cell that is not parseable as a Python literal (such
as the `nan` of a missing cell, or malformed text) raises and crashes the
pipeline rather than being preserved. -/
theorem claim_C6 (items : List (String × String)) :
    literalEval (CsvCell.lit (PyVal.pyList items))
        = some (PyVal.pyList items) ∧
    literalEval (CsvCell.lit PyVal.pyFloat) = some PyVal.pyFloat ∧
    PyVal.pyFloat ≠ PyVal.pyList items ∧
    literalEval CsvCell.missing = none ∧
    literalEval CsvCell.malformed = none :=
  ⟨rfl, rfl, fun h => PyVal.noConfusion h, rfl, rfl⟩

/-- Claim C7: every value actually returned by
`get_long_text_cosine_distance` or `get_short_text_cosine_distance` lies
in the closed interval `[0, 1]`. -/
theorem claim_C7 (a b : PyVal) (r : ℝ)
    (h : get_long_text_cosine_distance a b = some r ∨
      get_short_text_cosine_distance a b = some r) :
    0 ≤ r ∧ r ≤ 1 := by
  have hcases : r = 0 ∨ ∃ t1 t2, r = scoreOf t1 t2 := by
    rcases h with h | h
    · exact cosineDistanceBy_eq_some Prod.fst a b r h
    · exact cosineDistanceBy_eq_some Prod.snd a b r h
  rcases hcases with rfl | ⟨t1, t2, rfl⟩
  · norm_num
  · exact ⟨scoreOf_nonneg t1 t2, scoreOf_le_one t1 t2⟩

/-- Witness for C7 at a concrete returned value. -/
theorem claim_C7_witness :
    0 ≤ scoreOf ["ab"] ["ab"] ∧ scoreOf ["ab"] ["ab"] ≤ 1 :=
  claim_C7 (PyVal.pyList [("ab", "cd")]) (PyVal.pyList [("ab", "cd")])
    (scoreOf ["ab"] ["ab"]) (Or.inl rfl)

/-- Claim C8: when the pipeline completes, the partitions are iterated in
ascending `character_id` order, the total output row count equals the
input row count, and the multiset of output `character_id`s equals the
input's (every output row's key matches exactly one input row). -/
theorem claim_C8 (df : List Record) (out : List OutRow)
    (h : runPipeline df = some out) :
    (groupKeys df).Sorted (· ≤ ·) ∧ out.length = df.length ∧
    ((out.map Prod.fst).map Record.character_id).Perm
      (df.map Record.character_id) := by
  have hperm := runPipeline_rows_perm df out h
  refine ⟨groupKeys_sorted df, ?_, hperm.map Record.character_id⟩
  have := hperm.length_eq
  simpa using this

/-- Witness for C8 at a concrete one-record table. -/
theorem claim_C8_witness :
    (groupKeys [Record.mk 1 10 (PyVal.pyList [("ab", "cd")])]).Sorted
        (· ≤ ·) ∧
    ([(Record.mk 1 10 (PyVal.pyList [("ab", "cd")]),
        (ScoreEntry.nan, ScoreEntry.nan))] : List OutRow).length
      = [Record.mk 1 10 (PyVal.pyList [("ab", "cd")])].length ∧
    ((([(Record.mk 1 10 (PyVal.pyList [("ab", "cd")]),
        (ScoreEntry.nan, ScoreEntry.nan))] : List OutRow).map
          Prod.fst).map Record.character_id).Perm
      ([Record.mk 1 10 (PyVal.pyList [("ab", "cd")])].map
        Record.character_id) :=
  claim_C8 [Record.mk 1 10 (PyVal.pyList [("ab", "cd")])]
    [(Record.mk 1 10 (PyVal.pyList [("ab", "cd")]),
      (ScoreEntry.nan, ScoreEntry.nan))]
    (by simp [runPipeline, groupKeys, theGroup, sortGroup, processGroup,
      cosColumn, pairsOf, collectSome, List.mergeSort_singleton,
      List.mergeSort_nil])

/-- Claim C9: for every non-empty item list, the `reduce`-built document
is defined (the fold never hits the empty-list `TypeError`) and equals
the chosen token field of every item, in item order, joined by single
spaces — for both the long-form (field 0) and short-form (field 1)
variants. -/
theorem claim_C9 (los : List (String × String)) (h : los ≠ []) :
    reduceSpace (los.map Prod.fst) = some (specJoin (los.map Prod.fst)) ∧
    reduceSpace (los.map Prod.snd) = some (specJoin (los.map Prod.snd)) :=
  ⟨reduceSpace_eq_specJoin _ (by simp [List.map_eq_nil_iff, h]),
   reduceSpace_eq_specJoin _ (by simp [List.map_eq_nil_iff, h])⟩

/-- Witness for C9 at a concrete two-item list. -/
theorem claim_C9_witness :
    reduceSpace ([("Rifle", "Gun"), ("Armor", "Mod")].map Prod.fst)
      = some (specJoin ([("Rifle", "Gun"), ("Armor", "Mod")].map Prod.fst)) ∧
    reduceSpace ([("Rifle", "Gun"), ("Armor", "Mod")].map Prod.snd)
      = some (specJoin ([("Rifle", "Gun"), ("Armor", "Mod")].map Prod.snd)) :=
  claim_C9 [("Rifle", "Gun"), ("Armor", "Mod")] (by decide)

/-- Claim C10: both similarity functions are symmetric in their two
arguments. -/
theorem claim_C10 (a b : PyVal) :
    get_long_text_cosine_distance a b = get_long_text_cosine_distance b a ∧
    get_short_text_cosine_distance a b = get_short_text_cosine_distance b a :=
  ⟨cosineDistanceBy_comm Prod.fst a b, cosineDistanceBy_comm Prod.snd a b⟩

end CompDistance
